import Mathlib

/-!
Verification of the LiveTranslator streaming-translation pipeline.

This file gives a shallow embedding, in Lean 4, of the core of the
`LiveTranslator` repository: the `TranslationCache` LRU cache and the
`Translator` helpers from `src/translator.py`, and the pipeline coordinator
(`LiveTranslator` class) from `src/live_translator.py` — its state machine,
worker loop, statistics and callback behaviour — together with theorems
checking the natural-language specification against this embedding.

Modelling conventions:
* Python `dict` values are modelled as association lists (`List (String × String)`)
  whose key lists are kept duplicate-free; Python `list` values as Lean lists.
* Python `float` quantities (times, scores) are modelled as `ℚ`.
* Python's builtin `hash` on strings is salted per process; it is modelled as
  an explicit parameter `hashFn : String → Int` threaded through the cache.
* Python `str.strip()` is modelled as `pyStrip` (drop surrounding
  whitespace); Python string truthiness is `s ≠ ""`.
* Operations that can raise (`list.pop(0)` on an empty list, `del d[k]` or
  `list.remove(k)` on a missing key) return `Except String α`, the error
  string naming the Python exception.  Callback invocations are modelled as
  append-only event logs on the coordinator state (the source wraps each
  callback call in try/except, so a callback never throws back into the core).
-/

namespace LiveTranslatorModel

/-! ### Python `str.strip()` -/

/-- Drop whitespace from both ends of a character list. -/
def stripChars (l : List Char) : List Char :=
  ((l.dropWhile Char.isWhitespace).reverse.dropWhile Char.isWhitespace).reverse

/-- Python `s.strip()`: remove leading and trailing whitespace.  (Implemented
on the character list so that it reduces inside the kernel.) -/
def pyStrip (s : String) : String := String.mk (stripChars s.data)

/-! ### Association-list model of Python `dict` -/

/-- Lookup in a Python dict: `d[k]` / `d.get(k)`. -/
def dictGet : List (String × String) → String → Option String
  | [], _ => none
  | (k1, v) :: rest, k => if k1 = k then some v else dictGet rest k

/-- Assignment `d[k] = v`: overwrite in place, or append a new entry. -/
def dictSet : List (String × String) → String → String → List (String × String)
  | [], k, v => [(k, v)]
  | (k1, v1) :: rest, k, v =>
      if k1 = k then (k1, v) :: rest else (k1, v1) :: dictSet rest k v

/-- Deletion `del d[k]` (first matching entry; caller checks presence). -/
def dictDel : List (String × String) → String → List (String × String)
  | [], _ => []
  | (k1, v1) :: rest, k => if k1 = k then rest else (k1, v1) :: dictDel rest k

/-- Python `list.remove(x)`: drop the first occurrence (caller checks presence). -/
def removeFirst : List String → String → List String
  | [], _ => []
  | x :: xs, k => if x = k then xs else x :: removeFirst xs k

/-- The key list of a dict. -/
def keysOf (d : List (String × String)) : List String := d.map Prod.fst

/-! ### TranslationCache (`src/translator.py`, class `TranslationCache`) -/

/-- State of `TranslationCache`: the dict `self.cache`, the bound
`self.max_size` and the recency list `self.access_order`
(least recently used first, most recently used last). -/
structure TranslationCache where
  cache : List (String × String)
  max_size : Nat
  access_order : List String
deriving DecidableEq, Repr

/-- `TranslationCache.__init__`: empty dict, empty access order. -/
def TranslationCache.init (max_size : Nat) : TranslationCache :=
  { cache := [], max_size := max_size, access_order := [] }

/-- `TranslationCache._make_key`: `f"{source_lang}->{target_lang}:{hash(text)}"`,
with Python's builtin `hash` abstracted as `hashFn`. -/
def make_key (hashFn : String → Int) (text source_lang target_lang : String) : String :=
  source_lang ++ "->" ++ target_lang ++ ":" ++ toString (hashFn text)

/-- `TranslationCache.get`: on a hit, move the key to the most-recently-used
end of `access_order` and return the value; on a miss return `none` and leave
the state unchanged.  `list.remove` on a key absent from `access_order` would
raise `ValueError` in Python, hence the error branch. -/
def TranslationCache.get (hashFn : String → Int) (c : TranslationCache)
    (text source_lang target_lang : String) :
    Except String (Option String × TranslationCache) :=
  let key := make_key hashFn text source_lang target_lang
  match dictGet c.cache key with
  | some v =>
      if key ∈ c.access_order then
        .ok (some v, { c with access_order := removeFirst c.access_order key ++ [key] })
      else
        .error "ValueError: list.remove(x): x not in list"
  | none => .ok (none, c)

/-- `TranslationCache.set`: when inserting a new key at capacity, pop the head
of `access_order` (the least recently used key) and delete it from the dict,
then store the new entry and append its key to `access_order` if absent.
`list.pop(0)` on an empty list raises `IndexError`; `del` on a missing key
raises `KeyError` (both unreachable from well-formed states, proved below). -/
def TranslationCache.set (hashFn : String → Int) (c : TranslationCache)
    (text source_lang target_lang translation : String) :
    Except String TranslationCache :=
  let key := make_key hashFn text source_lang target_lang
  let step2 : TranslationCache → Except String TranslationCache := fun c1 =>
    let cache2 := dictSet c1.cache key translation
    let order2 := if key ∈ c1.access_order then c1.access_order
                  else c1.access_order ++ [key]
    .ok { c1 with cache := cache2, access_order := order2 }
  if c.cache.length ≥ c.max_size ∧ dictGet c.cache key = none then
    match c.access_order with
    | [] => .error "IndexError: pop from empty list"
    | oldest :: rest =>
        if (dictGet c.cache oldest).isSome then
          step2 { c with cache := dictDel c.cache oldest, access_order := rest }
        else
          .error "KeyError"
  else
    step2 c

/-- `TranslationCache.clear`: empty both the dict and the access order. -/
def TranslationCache.clear (c : TranslationCache) : TranslationCache :=
  { c with cache := [], access_order := [] }

/-- One public cache operation, for reasoning about arbitrary call sequences. -/
inductive CacheOp
  | get (text source_lang target_lang : String)
  | set (text source_lang target_lang translation : String)
  | clear
deriving DecidableEq, Repr

/-- Run one cache operation (the result of a `get` is discarded). -/
def runOp (hashFn : String → Int) (c : TranslationCache) :
    CacheOp → Except String TranslationCache
  | .get t s g => do
      let r ← c.get hashFn t s g
      pure r.2
  | .set t s g tr => c.set hashFn t s g tr
  | .clear => pure c.clear

/-- Run a sequence of cache operations from left to right. -/
def runOps (hashFn : String → Int) (c : TranslationCache) :
    List CacheOp → Except String TranslationCache
  | [] => pure c
  | op :: ops => do
      let c1 ← runOp hashFn c op
      runOps hashFn c1 ops

/-! ### Translator (`src/translator.py`, class `Translator`)

The translation backends (OpenAI / Google) are external collaborators; both
`_translate_with_openai` and `_translate_with_google` catch their own
exceptions and return `None` on failure, so from `translate_text`'s point of
view the engine dispatch is one call `backend : String → Option String`
(`none` = failure).  `_rate_limit` only sleeps and is not modelled. -/

/-- Python truthiness of an optional string: `None` and `""` are falsy,
every other string is truthy. -/
def pyTruthy : Option String → Bool
  | some s => s ≠ ""
  | none => false

/-- `Translator.translate_text`: empty or whitespace-only input returns `""`
immediately; otherwise the backend is invoked once.  The second component
counts backend invocations.  An exception escaping the backend would be
caught by the surrounding `try` and turned into `None`; that case is already
absorbed into `backend` returning `none`. -/
def translate_text (backend : String → Option String) (text : String) :
    Option String × Nat :=
  if pyStrip text = "" then (some "", 0)
  else (backend text, 1)

/-- `Translator.get_translation_confidence`: 0 when either side strips to
empty, otherwise `0.7 * min(len)/max(len)` capped at 1.  Python floats are
modelled as `ℚ`; `len` is the character count. -/
def get_translation_confidence (original translated : String) : ℚ :=
  if pyStrip original = "" ∨ pyStrip translated = "" then 0
  else
    let lengthRatio : ℚ :=
      (min translated.length original.length : ℚ) /
        (max translated.length original.length : ℚ)
    let baseScore : ℚ := if pyStrip translated ≠ "" then 7/10 else 0
    min (baseScore * lengthRatio) 1

/-- Well-formedness of a cache state, maintained by every operation:
duplicate-free keys, `access_order` holding exactly the stored keys, and the
size bound. -/
structure CacheWF (c : TranslationCache) : Prop where
  nodup_keys : (keysOf c.cache).Nodup
  nodup_order : c.access_order.Nodup
  mem_iff : ∀ k, k ∈ keysOf c.cache ↔ k ∈ c.access_order
  size_le : c.cache.length ≤ c.max_size

/-! ### Pipeline coordinator (`src/live_translator.py`, class `LiveTranslator`) -/

/-- The `ProcessingState` enum. -/
inductive ProcessingState
  | stopped
  | starting
  | running
  | stopping
  | error
deriving DecidableEq, Repr

/-- The `TranscriptionResult` dataclass.  Wall-clock capture time
(`time.time()`) is outside the model; the `timestamp` field is fixed at 0. -/
structure TranscriptionResult where
  timestamp : ℚ
  original_text : String
  translated_text : Option String
  confidence : ℚ
  language : String
deriving DecidableEq, Repr

/-- The `self.stats` counter dictionary. -/
structure Stats where
  segments_processed : Nat
  total_audio_time : ℚ
  total_processing_time : ℚ
  errors : Nat
  cache_hits : Nat
  cache_misses : Nat
deriving DecidableEq, Repr

/-- Coordinator state: configuration, processing state, cache, statistics,
the audio queue, and append-only logs recording each callback invocation
(`transcription_callback`, `error_callback`, `state_callback`).  The source
wraps every callback call in its own try/except, so an observer exception
never flows back; recording the invocation is therefore a faithful model of
the call. -/
structure LiveTranslator where
  segment_duration : ℚ
  source_language : String
  target_language : String
  state : ProcessingState
  current_url : Option String
  translation_cache : TranslationCache
  stats : Stats
  results : List TranscriptionResult
  errorEvents : List String
  stateEvents : List ProcessingState
deriving DecidableEq, Repr

/-- `LiveTranslator.__init__` (with defaults `segment_duration=10`,
`cache_size=500`, `source_language="en"`, `target_language="ja"`,
initial state `STOPPED`). -/
def LiveTranslator.init (segment_duration : ℚ) (cache_size : Nat) : LiveTranslator :=
  { segment_duration := segment_duration
    source_language := "en"
    target_language := "ja"
    state := .stopped
    current_url := none
    translation_cache := TranslationCache.init cache_size
    stats := ⟨0, 0, 0, 0, 0, 0⟩
    results := []
    errorEvents := []
    stateEvents := [] }

/-- `LiveTranslator._update_state`: assign and report only when the state
actually changes; a no-op transition is suppressed. -/
def update_state (lt : LiveTranslator) (new_state : ProcessingState) : LiveTranslator :=
  if lt.state ≠ new_state then
    { lt with state := new_state, stateEvents := lt.stateEvents ++ [new_state] }
  else lt

/-- `LiveTranslator._handle_error`: count the error, transition to `ERROR`,
and invoke the error callback. -/
def handle_error (lt : LiveTranslator) (error_message : String) : LiveTranslator :=
  let lt1 := { lt with stats := { lt.stats with errors := lt.stats.errors + 1 } }
  let lt2 := update_state lt1 .error
  { lt2 with errorEvents := lt2.errorEvents ++ [error_message] }

/-- What the external collaborators do for one dequeued audio segment.
`normal` carries the value returned by `SpeechRecognizer.transcribe_audio_data`
(which catches its own exceptions, so it returns an `Option`, `none` =
recognition failure), the value the translation backend would return if it
were invoked, and the measured processing duration `time.time() - start_time`.
`raises` is an exception reaching the worker's own try/except from anywhere
in the loop body. -/
inductive SegBehavior
  | normal (transcription : Option String) (backendTranslation : Option String)
      (duration : ℚ)
  | raises (msg : String)
deriving DecidableEq, Repr

/-- The tail of the worker's per-segment success path, shared by the cache
hit and cache miss branches: confidence computation (`translation or ""`),
result construction, `transcription_callback` invocation and the statistics
updates. -/
def emit_result (lt : LiveTranslator) (text : String) (translation : Option String)
    (duration : ℚ) : LiveTranslator :=
  let confidence := get_translation_confidence text (translation.getD "")
  let result : TranscriptionResult :=
    { timestamp := 0
      original_text := text
      translated_text := translation
      confidence := confidence
      language := lt.source_language }
  let lt1 := { lt with results := lt.results ++ [result] }
  { lt1 with stats :=
      { lt1.stats with
        segments_processed := lt1.stats.segments_processed + 1
        total_processing_time := lt1.stats.total_processing_time + duration
        total_audio_time := lt1.stats.total_audio_time + lt1.segment_duration } }

/-- The body of `LiveTranslator._audio_processing_worker` for one dequeued
segment, including the surrounding `except Exception` that routes any raise
to `_handle_error` (the `time.sleep` calls are not modelled).  Mirrors the
source line by line: skip when the transcription is `None` or strips to
empty; consult the cache (a cached empty string is falsy in Python and is
treated as a miss); on a miss invoke the backend and store only a truthy
translation; compute the confidence with `translation or ""`; emit the
result; update the statistics. -/
def worker_step (hashFn : String → Int) (lt : LiveTranslator) (b : SegBehavior) :
    LiveTranslator :=
  match b with
  | .raises msg => handle_error lt ("音声処理エラー: " ++ msg)
  | .normal transcription backendTranslation duration =>
    match transcription with
    | none => lt
    | some text =>
      if pyStrip text = "" then lt
      else
        match lt.translation_cache.get hashFn text lt.source_language lt.target_language with
        | .error msg => handle_error lt ("音声処理エラー: " ++ msg)
        | .ok (cachedTranslation, cache1) =>
          let lt1 := { lt with translation_cache := cache1 }
          if pyTruthy cachedTranslation then
            -- cache hit
            let translation := cachedTranslation
            let lt2 := { lt1 with stats := { lt1.stats with cache_hits := lt1.stats.cache_hits + 1 } }
            emit_result lt2 text translation duration
          else
            -- cache miss: invoke the backend, store a truthy result
            let translation := backendTranslation
            let storeStep : Except String LiveTranslator :=
              if pyTruthy translation then
                match lt1.translation_cache.set hashFn text lt1.source_language
                    lt1.target_language (translation.getD "") with
                | .error msg => .error msg
                | .ok cache2 => .ok { lt1 with translation_cache := cache2 }
              else .ok lt1
            match storeStep with
            | .error msg => handle_error lt1 ("音声処理エラー: " ++ msg)
            | .ok lt2 =>
              let lt3 := { lt2 with stats := { lt2.stats with cache_misses := lt2.stats.cache_misses + 1 } }
              emit_result lt3 text translation duration

/-- `LiveTranslator._audio_processing_worker` over a finite queue trace:
`none` is the termination sentinel.  The loop guard
`while self.state in [RUNNING, STARTING]` is re-checked before every
dequeue; the idle (empty-queue sleep) branch is not modelled, so a run
consumes the queued items in order until the sentinel arrives, the guard
fails, or the trace ends. -/
def audio_processing_worker (hashFn : String → Int) (lt : LiveTranslator) :
    List (Option SegBehavior) → LiveTranslator
  | [] => lt
  | item :: rest =>
    if lt.state = .running ∨ lt.state = .starting then
      match item with
      | none => lt
      | some b => audio_processing_worker hashFn (worker_step hashFn lt b) rest
    else lt

/-- `LiveTranslator.start_translation`.  The extractor is an external
collaborator: `isLive` models `is_live_stream(url)` and `streamInfo` models
`get_stream_info(url)` (`none` = falsy, covering both `None` and an empty
dict).  Worker-thread spawning and continuous extraction are external side
effects with no coordinator-state footprint.  Returns the updated state and
the boolean result. -/
def start_translation (lt : LiveTranslator) (url : String) (isLive : Bool)
    (streamInfo : Option String) : LiveTranslator × Bool :=
  if lt.state ≠ .stopped then (lt, false)
  else
    let lt1 := update_state lt .starting
    let lt2 := { lt1 with current_url := some url }
    if ¬ isLive then
      (handle_error lt2 "指定されたURLはライブ配信ではありません", false)
    else
      match streamInfo with
      | none => (handle_error lt2 "ストリーム情報の取得に失敗しました", false)
      | some _ => (update_state lt2 .running, true)

/-- `LiveTranslator.stop_translation`: transition to `STOPPING`, stop the
extractor (external), push the sentinel and join the workers (the queue is
then drained completely, so its net content is empty — the drain loop and
worker list are not separately modelled), and transition to `STOPPED`. -/
def stop_translation (lt : LiveTranslator) : LiveTranslator :=
  let lt1 := update_state lt .stopping
  update_state lt1 .stopped

/-- The dictionary returned by `LiveTranslator.get_stats`: the six counters
plus the derived values. -/
structure StatsView where
  segments_processed : Nat
  total_audio_time : ℚ
  total_processing_time : ℚ
  errors : Nat
  cache_hits : Nat
  cache_misses : Nat
  avg_processing_time : ℚ
  processing_speed_ratio : ℚ
  cache_hit_rate : ℚ
deriving DecidableEq, Repr

/-- `LiveTranslator.get_stats`: copy the counters and compute the derived
values at read time.  The source guards the `avg_processing_time` division
with `segments_processed > 0` but not the `processing_speed_ratio` division
by `total_processing_time`: when `segments_processed > 0` and
`total_processing_time == 0.0` (each duration is a difference of two
wall-clock reads, so an exact 0.0 is possible) Python raises
`ZeroDivisionError` and `get_stats` returns nothing — modelled as the error
branch.  `cache_hit_rate` is computed afterwards in the source and its
division is guarded, so it never raises. -/
def get_stats (lt : LiveTranslator) : Except String StatsView :=
  let s := lt.stats
  let cache_hit_rate : ℚ :=
    if s.cache_hits + s.cache_misses > 0 then
      (s.cache_hits : ℚ) / ((s.cache_hits + s.cache_misses : Nat) : ℚ)
    else 0
  if s.segments_processed > 0 then
    if s.total_processing_time = 0 then
      .error "ZeroDivisionError: float division by zero"
    else
      .ok { segments_processed := s.segments_processed
            total_audio_time := s.total_audio_time
            total_processing_time := s.total_processing_time
            errors := s.errors
            cache_hits := s.cache_hits
            cache_misses := s.cache_misses
            avg_processing_time := s.total_processing_time / (s.segments_processed : ℚ)
            processing_speed_ratio := s.total_audio_time / s.total_processing_time
            cache_hit_rate := cache_hit_rate }
  else
    .ok { segments_processed := s.segments_processed
          total_audio_time := s.total_audio_time
          total_processing_time := s.total_processing_time
          errors := s.errors
          cache_hits := s.cache_hits
          cache_misses := s.cache_misses
          avg_processing_time := 0
          processing_speed_ratio := 0
          cache_hit_rate := cache_hit_rate }

/-! ### Lemmas: dictionaries and the access-order list -/

theorem keysOf_nil : keysOf [] = [] := rfl

theorem keysOf_cons (p : String × String) (d : List (String × String)) :
    keysOf (p :: d) = p.1 :: keysOf d := rfl

theorem length_keysOf (d : List (String × String)) :
    (keysOf d).length = d.length := by
  simp [keysOf]

theorem dictGet_eq_none_iff (d : List (String × String)) (k : String) :
    dictGet d k = none ↔ k ∉ keysOf d := by
  induction d with
  | nil => simp [dictGet, keysOf]
  | cons p rest ih =>
      obtain ⟨k1, v⟩ := p
      by_cases hk : k1 = k
      · subst hk
        simp [dictGet, keysOf_cons]
      · simp [dictGet, hk, keysOf_cons, ih, Ne.symm hk]

theorem dictGet_isSome_iff (d : List (String × String)) (k : String) :
    (dictGet d k).isSome ↔ k ∈ keysOf d := by
  rw [← not_iff_not, ← dictGet_eq_none_iff d k]
  cases dictGet d k <;> simp

theorem keysOf_dictSet (d : List (String × String)) (k v : String) :
    keysOf (dictSet d k v) =
      if k ∈ keysOf d then keysOf d else keysOf d ++ [k] := by
  induction d with
  | nil => simp [dictSet, keysOf]
  | cons p rest ih =>
      obtain ⟨k1, v1⟩ := p
      by_cases hk : k1 = k
      · subst hk
        simp [dictSet, keysOf_cons]
      · simp only [dictSet, if_neg hk, keysOf_cons, ih]
        by_cases hmem : k ∈ keysOf rest
        · simp [hmem, Ne.symm hk]
        · simp [hmem, Ne.symm hk]

theorem dictGet_dictSet_self (d : List (String × String)) (k v : String) :
    dictGet (dictSet d k v) k = some v := by
  induction d with
  | nil => simp [dictSet, dictGet]
  | cons p rest ih =>
      obtain ⟨k1, v1⟩ := p
      by_cases hk : k1 = k
      · subst hk
        simp [dictSet, dictGet]
      · simp [dictSet, dictGet, hk, ih]

theorem dictGet_dictSet_ne (d : List (String × String)) (k v j : String)
    (h : j ≠ k) : dictGet (dictSet d k v) j = dictGet d j := by
  induction d with
  | nil =>
      have hkj : ¬ k = j := fun hh => h hh.symm
      simp [dictSet, dictGet, hkj]
  | cons p rest ih =>
      obtain ⟨k1, v1⟩ := p
      by_cases hk : k1 = k
      · have hkj : ¬ k = j := fun hh => h hh.symm
        simp [dictSet, dictGet, hk, hkj]
      · by_cases hj : k1 = j
        · simp [dictSet, dictGet, hk, hj, h]
        · simp [dictSet, dictGet, hk, hj, ih]

theorem keysOf_dictDel (d : List (String × String)) (k : String) :
    keysOf (dictDel d k) = removeFirst (keysOf d) k := by
  induction d with
  | nil => simp [dictDel, keysOf, removeFirst]
  | cons p rest ih =>
      obtain ⟨k1, v1⟩ := p
      by_cases hk : k1 = k
      · simp [dictDel, keysOf, keysOf_cons, removeFirst, hk]
      · have ih2 : List.map Prod.fst (dictDel rest k) =
            removeFirst (List.map Prod.fst rest) k := by simpa [keysOf] using ih
        simp [dictDel, if_neg hk, removeFirst, keysOf, hk, ih2]

theorem dictGet_dictDel_ne (d : List (String × String)) (k j : String)
    (h : j ≠ k) : dictGet (dictDel d k) j = dictGet d j := by
  induction d with
  | nil => simp [dictDel]
  | cons p rest ih =>
      obtain ⟨k1, v1⟩ := p
      by_cases hk : k1 = k
      · have hkj : ¬ k = j := fun hh => h hh.symm
        simp [dictDel, dictGet, hk, hkj]
      · by_cases hj : k1 = j
        · simp [dictDel, dictGet, hk, hj, h]
        · simp [dictDel, dictGet, hk, hj, ih]

theorem dictGet_dictDel_self (d : List (String × String)) (k : String)
    (h : (keysOf d).Nodup) : dictGet (dictDel d k) k = none := by
  induction d with
  | nil => simp [dictDel, dictGet]
  | cons p rest ih =>
      obtain ⟨k1, v1⟩ := p
      rw [keysOf_cons, List.nodup_cons] at h
      obtain ⟨h1, h2⟩ := h
      by_cases hk : k1 = k
      · rw [dictDel, if_pos hk, dictGet_eq_none_iff]
        exact hk ▸ h1
      · simp [dictDel, dictGet, hk, ih h2]

theorem length_dictDel_of_mem (d : List (String × String)) (k : String)
    (h : k ∈ keysOf d) : d.length = (dictDel d k).length + 1 := by
  induction d with
  | nil => simp [keysOf] at h
  | cons p rest ih =>
      obtain ⟨k1, v1⟩ := p
      by_cases hk : k1 = k
      · subst hk
        simp [dictDel]
      · rw [keysOf_cons] at h
        rcases List.mem_cons.mp h with h1 | h1
        · exact absurd h1.symm hk
        · simp [dictDel, hk, ih h1]

theorem removeFirst_sublist (l : List String) (k : String) :
    (removeFirst l k).Sublist l := by
  induction l with
  | nil => simp [removeFirst]
  | cons x xs ih =>
      by_cases hx : x = k
      · simp [removeFirst, hx]
      · simpa [removeFirst, hx] using ih.cons₂ x

theorem nodup_removeFirst (l : List String) (k : String) (h : l.Nodup) :
    (removeFirst l k).Nodup :=
  h.sublist (removeFirst_sublist l k)

theorem mem_removeFirst (l : List String) (k j : String) (h : l.Nodup) :
    j ∈ removeFirst l k ↔ j ∈ l ∧ j ≠ k := by
  induction l with
  | nil => simp [removeFirst]
  | cons x xs ih =>
      rw [List.nodup_cons] at h
      by_cases hx : x = k
      · subst hx
        constructor
        · intro hj
          refine ⟨List.mem_cons_of_mem _ (by simpa [removeFirst] using hj), ?_⟩
          intro hjx
          subst hjx
          exact h.1 (by simpa [removeFirst] using hj)
        · intro ⟨hj, hne⟩
          rcases List.mem_cons.mp hj with h1 | h1
          · exact absurd h1 hne
          · simpa [removeFirst] using h1
      · constructor
        · intro hj
          rcases List.mem_cons.mp (by simpa [removeFirst, hx] using hj) with h1 | h1
          · subst h1
            exact ⟨List.mem_cons_self _ _, fun hh => hx hh⟩
          · have := (ih h.2).mp h1
            exact ⟨List.mem_cons_of_mem _ this.1, this.2⟩
        · intro ⟨hj, hne⟩
          rcases List.mem_cons.mp hj with h1 | h1
          · subst h1
            simp [removeFirst, hx]
          · simpa [removeFirst, hx] using Or.inr ((ih h.2).mpr ⟨h1, hne⟩)

theorem nodup_append_singleton (l : List String) (k : String)
    (h1 : l.Nodup) (h2 : k ∉ l) : (l ++ [k]).Nodup := by
  simp [List.nodup_append, h1, h2]

/-! ### Lemmas: TranslationCache operations preserve well-formedness -/

theorem cacheWF_init (n : Nat) : CacheWF (TranslationCache.init n) := by
  refine ⟨by simp [TranslationCache.init, keysOf], by simp [TranslationCache.init], ?_, ?_⟩
  · intro k
    simp [TranslationCache.init, keysOf]
  · simp [TranslationCache.init]

theorem get_ok (hashFn : String → Int) (c : TranslationCache)
    (text s g : String) (hwf : CacheWF c) :
    ∃ c1, c.get hashFn text s g =
        .ok (dictGet c.cache (make_key hashFn text s g), c1) ∧
      CacheWF c1 ∧ c1.cache = c.cache ∧ c1.max_size = c.max_size := by
  rcases hg : dictGet c.cache (make_key hashFn text s g) with _ | v
  · exact ⟨c, by simp [TranslationCache.get, hg], hwf, rfl, rfl⟩
  · have hmem : make_key hashFn text s g ∈ keysOf c.cache :=
      (dictGet_isSome_iff _ _).mp (by simp [hg])
    have hord : make_key hashFn text s g ∈ c.access_order := (hwf.mem_iff _).mp hmem
    refine ⟨⟨c.cache, c.max_size,
        removeFirst c.access_order (make_key hashFn text s g) ++ [make_key hashFn text s g]⟩,
      by simp [TranslationCache.get, hg, hord], ?_, rfl, rfl⟩
    have hnotin : make_key hashFn text s g ∉
        removeFirst c.access_order (make_key hashFn text s g) := by
      rw [mem_removeFirst _ _ _ hwf.nodup_order]
      simp
    refine ⟨hwf.nodup_keys, ?_, ?_, hwf.size_le⟩
    · exact nodup_append_singleton _ _ (nodup_removeFirst _ _ hwf.nodup_order) hnotin
    · intro j
      rw [hwf.mem_iff j]
      simp only [List.mem_append, List.mem_singleton,
        mem_removeFirst _ _ _ hwf.nodup_order]
      constructor
      · intro hj
        by_cases hjk : j = make_key hashFn text s g
        · exact Or.inr hjk
        · exact Or.inl ⟨hj, hjk⟩
      · rintro (⟨hj, _⟩ | hj)
        · exact hj
        · exact hj ▸ hord

theorem get_miss (hashFn : String → Int) (c : TranslationCache) (text s g : String)
    (hmiss : dictGet c.cache (make_key hashFn text s g) = none) :
    c.get hashFn text s g = .ok (none, c) := by
  simp [TranslationCache.get, hmiss]

theorem get_promotes (hashFn : String → Int) (c : TranslationCache)
    (text s g v : String) (hwf : CacheWF c)
    (hv : dictGet c.cache (make_key hashFn text s g) = some v) :
    ∃ c1, c.get hashFn text s g = .ok (some v, c1) ∧ c1.cache = c.cache ∧
      c1.max_size = c.max_size ∧
      c1.access_order.getLast? = some (make_key hashFn text s g) := by
  have hmem : make_key hashFn text s g ∈ keysOf c.cache :=
    (dictGet_isSome_iff _ _).mp (by simp [hv])
  have hord : make_key hashFn text s g ∈ c.access_order := (hwf.mem_iff _).mp hmem
  refine ⟨⟨c.cache, c.max_size,
      removeFirst c.access_order (make_key hashFn text s g) ++ [make_key hashFn text s g]⟩,
    by simp [TranslationCache.get, hv, hord], rfl, rfl, ?_⟩
  simp

/-- `set` when eviction triggers: a new key arrives while the store holds
`max_size` entries.  The head of `access_order` — the least-recently-used
key — is evicted: exactly that entry disappears, the new entry appears, the
size stays at `max_size`, every other mapping is untouched, and the new key
becomes most recently used. -/
theorem set_evict (hashFn : String → Int) (c : TranslationCache)
    (text s g tr : String) (hwf : CacheWF c) (hmax : 1 ≤ c.max_size)
    (hfull : c.cache.length = c.max_size)
    (hnew : dictGet c.cache (make_key hashFn text s g) = none) :
    ∃ lru rest c1, c.access_order = lru :: rest ∧
      c.set hashFn text s g tr = .ok c1 ∧
      c1.cache.length = c.max_size ∧
      c1.max_size = c.max_size ∧
      dictGet c1.cache lru = none ∧
      dictGet c1.cache (make_key hashFn text s g) = some tr ∧
      (∀ j, j ≠ lru → j ≠ make_key hashFn text s g →
        dictGet c1.cache j = dictGet c.cache j) ∧
      c1.access_order = rest ++ [make_key hashFn text s g] := by
  have hkeynot : make_key hashFn text s g ∉ keysOf c.cache :=
    (dictGet_eq_none_iff _ _).mp hnew
  have hpos : 0 < c.cache.length := hfull ▸ hmax
  rcases horder : c.access_order with _ | ⟨oldest, rest⟩
  · exfalso
    have hempty : keysOf c.cache = [] := by
      rcases hk : keysOf c.cache with _ | ⟨k0, ks⟩
      · rfl
      · have : k0 ∈ c.access_order :=
          (hwf.mem_iff k0).mp (by rw [hk]; exact List.mem_cons_self _ _)
        rw [horder] at this
        simp at this
    have : c.cache.length = 0 := by rw [← length_keysOf, hempty]; rfl
    omega
  · have holdmem : oldest ∈ c.access_order := by
      rw [horder]; exact List.mem_cons_self _ _
    have holdkeys : oldest ∈ keysOf c.cache := (hwf.mem_iff oldest).mpr holdmem
    have hsome : (dictGet c.cache oldest).isSome := (dictGet_isSome_iff _ _).mpr holdkeys
    have holdne : oldest ≠ make_key hashFn text s g := fun hh => hkeynot (hh ▸ holdkeys)
    have hkeyord : make_key hashFn text s g ∉ c.access_order :=
      fun hh => hkeynot ((hwf.mem_iff _).mpr hh)
    have hkeyrest : make_key hashFn text s g ∉ rest := by
      intro hh
      exact hkeyord (by rw [horder]; exact List.mem_cons_of_mem _ hh)
    have hcond : c.cache.length ≥ c.max_size ∧
        dictGet c.cache (make_key hashFn text s g) = none := ⟨le_of_eq hfull.symm, hnew⟩
    refine ⟨oldest, rest,
      ⟨dictSet (dictDel c.cache oldest) (make_key hashFn text s g) tr, c.max_size,
        rest ++ [make_key hashFn text s g]⟩,
      rfl, ?_, ?_, rfl, ?_, ?_, ?_, rfl⟩
    · simp [TranslationCache.set, hcond, horder, hsome, hkeyrest]
    · show (dictSet (dictDel c.cache oldest) (make_key hashFn text s g) tr).length =
        c.max_size
      have hdelkeys : make_key hashFn text s g ∉ keysOf (dictDel c.cache oldest) := by
        rw [keysOf_dictDel]
        intro hh
        exact hkeynot ((removeFirst_sublist _ _).mem hh)
      have h1 : (dictSet (dictDel c.cache oldest) (make_key hashFn text s g) tr).length =
          (dictDel c.cache oldest).length + 1 := by
        rw [← length_keysOf, keysOf_dictSet, if_neg hdelkeys]
        simp [length_keysOf]
      have h2 : c.cache.length = (dictDel c.cache oldest).length + 1 :=
        length_dictDel_of_mem _ _ holdkeys
      omega
    · show dictGet (dictSet (dictDel c.cache oldest) (make_key hashFn text s g) tr)
        oldest = none
      rw [dictGet_dictSet_ne _ _ _ _ holdne]
      exact dictGet_dictDel_self _ _ hwf.nodup_keys
    · exact dictGet_dictSet_self _ _ _
    · intro j hj1 hj2
      show dictGet (dictSet (dictDel c.cache oldest) (make_key hashFn text s g) tr) j =
        dictGet c.cache j
      rw [dictGet_dictSet_ne _ _ _ _ hj2, dictGet_dictDel_ne _ _ _ hj1]

/-- `set` never raises from a well-formed state with positive capacity, and
the stored key maps to the stored value afterwards; well-formedness (hence
the size bound) is preserved. -/
theorem set_ok (hashFn : String → Int) (c : TranslationCache)
    (text s g tr : String) (hwf : CacheWF c) (hmax : 1 ≤ c.max_size) :
    ∃ c1, c.set hashFn text s g tr = .ok c1 ∧ CacheWF c1 ∧
      c1.max_size = c.max_size ∧
      dictGet c1.cache (make_key hashFn text s g) = some tr := by
  by_cases hmem : make_key hashFn text s g ∈ keysOf c.cache
  · -- overwrite of an existing key: no eviction
    have hget : dictGet c.cache (make_key hashFn text s g) ≠ none :=
      fun hh => (dictGet_eq_none_iff _ _).mp hh hmem
    have hcond : ¬ (c.cache.length ≥ c.max_size ∧
        dictGet c.cache (make_key hashFn text s g) = none) := by
      rintro ⟨_, hh⟩
      exact hget hh
    have hord : make_key hashFn text s g ∈ c.access_order := (hwf.mem_iff _).mp hmem
    refine ⟨⟨dictSet c.cache (make_key hashFn text s g) tr, c.max_size, c.access_order⟩,
      by simp [TranslationCache.set, hcond, hord], ?_, rfl, dictGet_dictSet_self _ _ _⟩
    have hkeys : keysOf (dictSet c.cache (make_key hashFn text s g) tr) = keysOf c.cache := by
      rw [keysOf_dictSet, if_pos hmem]
    refine ⟨?_, hwf.nodup_order, ?_, ?_⟩
    · show (keysOf (dictSet c.cache (make_key hashFn text s g) tr)).Nodup
      rw [hkeys]
      exact hwf.nodup_keys
    · intro j
      show j ∈ keysOf (dictSet c.cache (make_key hashFn text s g) tr) ↔ j ∈ c.access_order
      rw [hkeys]
      exact hwf.mem_iff j
    · show (dictSet c.cache (make_key hashFn text s g) tr).length ≤ c.max_size
      have : (dictSet c.cache (make_key hashFn text s g) tr).length = c.cache.length := by
        rw [← length_keysOf, hkeys, length_keysOf]
      rw [this]
      exact hwf.size_le
  · have hnew : dictGet c.cache (make_key hashFn text s g) = none :=
      (dictGet_eq_none_iff _ _).mpr hmem
    have hkeyord : make_key hashFn text s g ∉ c.access_order :=
      fun hh => hmem ((hwf.mem_iff _).mpr hh)
    by_cases hfull : c.cache.length ≥ c.max_size
    · -- insertion at capacity: the eviction path
      have hfull2 : c.cache.length = c.max_size := le_antisymm hwf.size_le hfull
      obtain ⟨lru, rest, c1, horder, hset, hlen, hmaxeq, hlru, hkey, hother, horder2⟩ :=
        set_evict hashFn c text s g tr hwf hmax hfull2 hnew
      refine ⟨c1, hset, ?_, hmaxeq, hkey⟩
      -- rebuild well-formedness of the explicit witness produced by set_evict
      have hrest_nodup : rest.Nodup := by
        have := hwf.nodup_order
        rw [horder, List.nodup_cons] at this
        exact this.2
      have hlru_rest : lru ∉ rest := by
        have := hwf.nodup_order
        rw [horder, List.nodup_cons] at this
        exact this.1
      have hkeyrest : make_key hashFn text s g ∉ rest := by
        intro hh
        exact hkeyord (by rw [horder]; exact List.mem_cons_of_mem _ hh)
      have hlrukeys : lru ∈ keysOf c.cache :=
        (hwf.mem_iff lru).mpr (by rw [horder]; exact List.mem_cons_self _ _)
      have hlrune : lru ≠ make_key hashFn text s g := fun hh => hmem (hh ▸ hlrukeys)
      have hc1cache : c1.cache =
          dictSet (dictDel c.cache lru) (make_key hashFn text s g) tr := by
        -- recompute the set result: it is determined by the hypotheses
        have hsome : (dictGet c.cache lru).isSome := (dictGet_isSome_iff _ _).mpr hlrukeys
        have hcond : c.cache.length ≥ c.max_size ∧
            dictGet c.cache (make_key hashFn text s g) = none := ⟨hfull, hnew⟩
        have := hset
        rw [show c.set hashFn text s g tr =
            .ok ⟨dictSet (dictDel c.cache lru) (make_key hashFn text s g) tr, c.max_size,
              rest ++ [make_key hashFn text s g]⟩ from by
          simp [TranslationCache.set, hcond, horder, hsome, hkeyrest]] at this
        injection this with hh
        rw [← hh]
      have hdelkeys2 : keysOf (dictDel c.cache lru) = removeFirst (keysOf c.cache) lru :=
        keysOf_dictDel _ _
      have hkeydel : make_key hashFn text s g ∉ keysOf (dictDel c.cache lru) := by
        rw [hdelkeys2]
        intro hh
        exact hmem ((removeFirst_sublist _ _).mem hh)
      have hc1keys : keysOf c1.cache =
          removeFirst (keysOf c.cache) lru ++ [make_key hashFn text s g] := by
        rw [hc1cache, keysOf_dictSet, if_neg hkeydel, hdelkeys2]
      refine ⟨?_, ?_, ?_, ?_⟩
      · rw [hc1keys]
        exact nodup_append_singleton _ _
          (nodup_removeFirst _ _ hwf.nodup_keys)
          (fun hh => hmem ((removeFirst_sublist _ _).mem hh))
      · rw [horder2]
        exact nodup_append_singleton _ _ hrest_nodup hkeyrest
      · intro j
        rw [hc1keys, horder2]
        simp only [List.mem_append, List.mem_singleton,
          mem_removeFirst _ _ _ hwf.nodup_keys]
        have hj1 : j ∈ keysOf c.cache ↔ j ∈ lru :: rest := by
          rw [hwf.mem_iff j, horder]
        constructor
        · rintro (⟨hj, hne⟩ | hj)
          · rcases List.mem_cons.mp (hj1.mp hj) with h1 | h1
            · exact absurd h1 hne
            · exact Or.inl h1
          · exact Or.inr hj
        · rintro (hj | hj)
          · exact Or.inl ⟨hj1.mpr (List.mem_cons_of_mem _ hj),
              fun hh => hlru_rest (hh ▸ hj)⟩
          · exact Or.inr hj
      · rw [hmaxeq]
        exact le_of_eq hlen
    · -- insertion below capacity: no eviction
      push_neg at hfull
      have hcond : ¬ (c.cache.length ≥ c.max_size ∧
          dictGet c.cache (make_key hashFn text s g) = none) := by
        rintro ⟨hh, _⟩
        omega
      refine ⟨⟨dictSet c.cache (make_key hashFn text s g) tr, c.max_size,
          c.access_order ++ [make_key hashFn text s g]⟩,
        by simp [TranslationCache.set, hcond, hkeyord], ?_, rfl,
        dictGet_dictSet_self _ _ _⟩
      have hkeys : keysOf (dictSet c.cache (make_key hashFn text s g) tr) =
          keysOf c.cache ++ [make_key hashFn text s g] := by
        rw [keysOf_dictSet, if_neg hmem]
      refine ⟨?_, ?_, ?_, ?_⟩
      · show (keysOf (dictSet c.cache (make_key hashFn text s g) tr)).Nodup
        rw [hkeys]
        exact nodup_append_singleton _ _ hwf.nodup_keys hmem
      · exact nodup_append_singleton _ _ hwf.nodup_order hkeyord
      · intro j
        show j ∈ keysOf (dictSet c.cache (make_key hashFn text s g) tr) ↔
          j ∈ c.access_order ++ [make_key hashFn text s g]
        rw [hkeys]
        simp only [List.mem_append, List.mem_singleton, hwf.mem_iff j]
      · show (dictSet c.cache (make_key hashFn text s g) tr).length ≤ c.max_size
        have : (dictSet c.cache (make_key hashFn text s g) tr).length =
            c.cache.length + 1 := by
          rw [← length_keysOf, hkeys]
          simp [length_keysOf]
        omega

/-- `clear` preserves well-formedness and the capacity. -/
theorem clear_wf (c : TranslationCache) : CacheWF c.clear := by
  refine ⟨by simp [TranslationCache.clear, keysOf], by simp [TranslationCache.clear], ?_, ?_⟩
  · intro k
    simp [TranslationCache.clear, keysOf]
  · simp [TranslationCache.clear]

/-- A single public cache operation from a well-formed state with positive
capacity never raises, and preserves well-formedness and the capacity. -/
theorem runOp_ok (hashFn : String → Int) (c : TranslationCache) (op : CacheOp)
    (hwf : CacheWF c) (hmax : 1 ≤ c.max_size) :
    ∃ c1, runOp hashFn c op = .ok c1 ∧ CacheWF c1 ∧ c1.max_size = c.max_size := by
  cases op with
  | get t s g =>
      obtain ⟨c1, hget, hwf1, _, hmaxeq⟩ := get_ok hashFn c t s g hwf
      exact ⟨c1, by simp [runOp, hget], hwf1, hmaxeq⟩
  | set t s g tr =>
      obtain ⟨c1, hset, hwf1, hmaxeq, _⟩ := set_ok hashFn c t s g tr hwf hmax
      exact ⟨c1, by simp [runOp, hset], hwf1, hmaxeq⟩
  | clear =>
      exact ⟨c.clear, rfl, clear_wf c, rfl⟩

/-- Any sequence of public cache operations from a well-formed state with
positive capacity never raises, and the resulting state is well-formed with
the same capacity (in particular its size respects the bound). -/
theorem runOps_ok (hashFn : String → Int) (ops : List CacheOp) :
    ∀ c : TranslationCache, CacheWF c → 1 ≤ c.max_size →
      ∃ c1, runOps hashFn c ops = .ok c1 ∧ CacheWF c1 ∧ c1.max_size = c.max_size := by
  induction ops with
  | nil => exact fun c hwf _ => ⟨c, rfl, hwf, rfl⟩
  | cons op rest ih =>
      intro c hwf hmax
      obtain ⟨c1, hop, hwf1, hmaxeq⟩ := runOp_ok hashFn c op hwf hmax
      obtain ⟨c2, hrest, hwf2, hmaxeq2⟩ := ih c1 hwf1 (hmaxeq ▸ hmax)
      refine ⟨c2, ?_, hwf2, hmaxeq2.trans hmaxeq⟩
      show (do
        let cNext ← runOp hashFn c op
        runOps hashFn cNext rest) = Except.ok c2
      rw [hop]
      exact hrest

/-! ### Lemmas: the worker loop body -/

/-- A segment whose transcription came back `None` is dropped silently:
no result, no error, no statistics change. -/
theorem worker_step_skip_none (hashFn : String → Int) (lt : LiveTranslator)
    (bt : Option String) (dur : ℚ) :
    worker_step hashFn lt (.normal none bt dur) = lt := rfl

/-- A segment whose transcription strips to the empty string is dropped
silently. -/
theorem worker_step_skip_blank (hashFn : String → Int) (lt : LiveTranslator)
    (text : String) (bt : Option String) (dur : ℚ) (h : pyStrip text = "") :
    worker_step hashFn lt (.normal (some text) bt dur) = lt := by
  simp [worker_step, h]

/-- Projections of the shared emit step: the result record appended and the
statistics increments, everything else untouched. -/
theorem emit_result_proj (lt : LiveTranslator) (text : String)
    (translation : Option String) (dur : ℚ) :
    (emit_result lt text translation dur).results =
        lt.results ++ [⟨0, text, translation,
          get_translation_confidence text (translation.getD ""), lt.source_language⟩] ∧
    (emit_result lt text translation dur).stats.segments_processed =
        lt.stats.segments_processed + 1 ∧
    (emit_result lt text translation dur).stats.total_processing_time =
        lt.stats.total_processing_time + dur ∧
    (emit_result lt text translation dur).stats.total_audio_time =
        lt.stats.total_audio_time + lt.segment_duration ∧
    (emit_result lt text translation dur).stats.errors = lt.stats.errors ∧
    (emit_result lt text translation dur).state = lt.state ∧
    (emit_result lt text translation dur).segment_duration =
        lt.segment_duration ∧
    (emit_result lt text translation dur).source_language =
        lt.source_language ∧
    (emit_result lt text translation dur).target_language =
        lt.target_language ∧
    (emit_result lt text translation dur).errorEvents = lt.errorEvents ∧
    (emit_result lt text translation dur).stateEvents = lt.stateEvents ∧
    (emit_result lt text translation dur).translation_cache =
        lt.translation_cache := by
  refine ⟨rfl, rfl, rfl, rfl, rfl, rfl, rfl, rfl, rfl, rfl, rfl, rfl⟩

/-- A segment with a non-blank transcription is always emitted (whether the
cache hits or misses, and whether or not the backend translation succeeds):
exactly one result is appended, whose original text is the transcription;
`segments_processed`, `total_processing_time` and `total_audio_time` advance;
the error counter, the state, the configuration and the event logs are
untouched; and the cache stays well-formed with the same capacity. -/
theorem worker_step_emits (hashFn : String → Int) (lt : LiveTranslator)
    (text : String) (bt : Option String) (dur : ℚ)
    (htext : ¬ pyStrip text = "")
    (hwf : CacheWF lt.translation_cache)
    (hmax : 1 ≤ lt.translation_cache.max_size) :
    ∃ w : LiveTranslator, worker_step hashFn lt (.normal (some text) bt dur) = w ∧
      (∃ r : TranscriptionResult, r.original_text = text ∧
        w.results = lt.results ++ [r]) ∧
      w.stats.segments_processed = lt.stats.segments_processed + 1 ∧
      w.stats.total_processing_time = lt.stats.total_processing_time + dur ∧
      w.stats.total_audio_time = lt.stats.total_audio_time + lt.segment_duration ∧
      w.stats.errors = lt.stats.errors ∧
      w.state = lt.state ∧
      w.segment_duration = lt.segment_duration ∧
      w.source_language = lt.source_language ∧
      w.target_language = lt.target_language ∧
      w.errorEvents = lt.errorEvents ∧
      w.stateEvents = lt.stateEvents ∧
      CacheWF w.translation_cache ∧
      w.translation_cache.max_size = lt.translation_cache.max_size := by
  obtain ⟨c1, hget, hwf1, hc1cache, hc1max⟩ :=
    get_ok hashFn lt.translation_cache text lt.source_language lt.target_language hwf
  cases htr : pyTruthy (dictGet lt.translation_cache.cache
      (make_key hashFn text lt.source_language lt.target_language)) with
  | true =>
      -- cache hit: the cached value is used
      have hw : worker_step hashFn lt (.normal (some text) bt dur) =
          emit_result
            { lt with translation_cache := c1,
                      stats := { lt.stats with cache_hits := lt.stats.cache_hits + 1 } }
            text
            (dictGet lt.translation_cache.cache
              (make_key hashFn text lt.source_language lt.target_language))
            dur := by
        simp [worker_step, htext, hget, htr]
      rw [hw]
      refine ⟨_, rfl, ⟨_, rfl, rfl⟩, rfl, rfl, rfl, rfl, rfl, rfl, rfl, rfl, rfl, rfl,
        hwf1, hc1max⟩
  | false =>
      cases hbt : pyTruthy bt with
      | false =>
          -- miss and falsy backend answer: nothing stored
          have hw : worker_step hashFn lt (.normal (some text) bt dur) =
              emit_result
                { lt with translation_cache := c1,
                          stats := { lt.stats with
                            cache_misses := lt.stats.cache_misses + 1 } }
                text bt dur := by
            simp [worker_step, htext, hget, htr, hbt]
          rw [hw]
          refine ⟨_, rfl, ⟨_, rfl, rfl⟩, rfl, rfl, rfl, rfl, rfl, rfl, rfl, rfl, rfl, rfl,
            hwf1, hc1max⟩
      | true =>
          -- miss and truthy backend answer: the translation is stored
          obtain ⟨c2, hset, hwf2, hc2max, _⟩ :=
            set_ok hashFn c1 text lt.source_language lt.target_language (bt.getD "")
              hwf1 (hc1max ▸ hmax)
          have hw : worker_step hashFn lt (.normal (some text) bt dur) =
              emit_result
                { lt with translation_cache := c2,
                          stats := { lt.stats with
                            cache_misses := lt.stats.cache_misses + 1 } }
                text bt dur := by
            simp [worker_step, htext, hget, htr, hbt, hset]
          rw [hw]
          refine ⟨_, rfl, ⟨_, rfl, rfl⟩, rfl, rfl, rfl, rfl, rfl, rfl, rfl, rfl, rfl, rfl,
            hwf2, hc2max.trans hc1max⟩

/-! ### Concrete instances for scenario theorems -/

/-- A concrete stand-in for Python's per-process string hash, used in the
concrete scenarios below. -/
def exampleHash : String → Int := fun s => (s.length : Int)

/-- A coordinator that has been started successfully on a live, resolvable
stream: the state reached from a fresh `LiveTranslator` (segment duration 10,
cache size 500) by one successful `start_translation`. -/
def startedLT : LiveTranslator :=
  (start_translation (LiveTranslator.init 10 500) "https://example.com/live" true
    (some "stream title")).1

/-! ### Auxiliary facts about `pyStrip` and lengths -/

theorem pyStrip_empty : pyStrip "" = "" := rfl

theorem length_pos_of_pyStrip_ne (s : String) (h : ¬ pyStrip s = "") :
    0 < s.length := by
  by_contra hlen
  push_neg at hlen
  have hd : s.data = [] := List.eq_nil_of_length_eq_zero (Nat.le_zero.mp hlen)
  apply h
  cases s with
  | mk data =>
      simp only at hd
      subst hd
      rfl

/-! ### Claim theorems -/

/-- C9: for every pair of strings, `get_translation_confidence` returns at
most `0.7`; on two non-blank inputs it equals exactly `0.7` times the length
ratio (shorter length over longer length), so values above `0.7` are never
produced for any input. -/
theorem C9_confidence_never_exceeds_seven_tenths :
    (∀ original translated : String,
      get_translation_confidence original translated ≤ 7/10) ∧
    (∀ original translated : String,
      ¬ pyStrip original = "" → ¬ pyStrip translated = "" →
      get_translation_confidence original translated =
        7/10 * ((min translated.length original.length : ℚ) /
          (max translated.length original.length : ℚ))) := by
  have hratio : ∀ original translated : String,
      ¬ pyStrip original = "" → ¬ pyStrip translated = "" →
      (0 : ℚ) ≤ (min translated.length original.length : ℚ) /
          (max translated.length original.length : ℚ) ∧
        (min translated.length original.length : ℚ) /
          (max translated.length original.length : ℚ) ≤ 1 := by
    intro original translated ho ht
    have hpos : 0 < translated.length := length_pos_of_pyStrip_ne _ ht
    have hmaxpos : (0 : ℚ) < (max translated.length original.length : ℚ) := by
      have : 0 < max translated.length original.length := lt_of_lt_of_le hpos (le_max_left _ _)
      exact_mod_cast this
    constructor
    · apply div_nonneg
      · positivity
      · exact le_of_lt hmaxpos
    · rw [div_le_one hmaxpos]
      exact_mod_cast min_le_max
  constructor
  · intro original translated
    rw [get_translation_confidence]
    by_cases hblank : pyStrip original = "" ∨ pyStrip translated = ""
    · rw [if_pos hblank]
      norm_num
    · rw [if_neg hblank]
      push_neg at hblank
      obtain ⟨ho, ht⟩ := hblank
      obtain ⟨hr0, hr1⟩ := hratio original translated ho ht
      have hbase : (if pyStrip translated ≠ "" then (7/10 : ℚ) else 0) = 7/10 :=
        if_pos ht
      rw [hbase]
      calc min ((7:ℚ)/10 * ((min translated.length original.length : ℚ) /
              (max translated.length original.length : ℚ))) 1
          ≤ (7:ℚ)/10 * ((min translated.length original.length : ℚ) /
              (max translated.length original.length : ℚ)) := min_le_left _ _
        _ ≤ (7:ℚ)/10 * 1 := by
            apply mul_le_mul_of_nonneg_left hr1
            norm_num
        _ = 7/10 := by norm_num
  · intro original translated ho ht
    rw [get_translation_confidence, if_neg (by push_neg; exact ⟨ho, ht⟩)]
    obtain ⟨hr0, hr1⟩ := hratio original translated ho ht
    have hbase : (if pyStrip translated ≠ "" then (7/10 : ℚ) else 0) = 7/10 :=
      if_pos ht
    rw [hbase]
    apply min_eq_left
    calc (7:ℚ)/10 * ((min translated.length original.length : ℚ) /
            (max translated.length original.length : ℚ))
        ≤ (7:ℚ)/10 * 1 := by
          apply mul_le_mul_of_nonneg_left hr1
          norm_num
      _ ≤ 1 := by norm_num

/-- Witness for C9 at a concrete input. -/
theorem C9_witness :
    get_translation_confidence "hello" "hi" ≤ 7/10 ∧
    (¬ pyStrip "hello" = "" ∧ ¬ pyStrip "hi" = "" ∧
      get_translation_confidence "hello" "hi" =
        7/10 * ((min "hi".length "hello".length : ℚ) /
          (max "hi".length "hello".length : ℚ))) :=
  ⟨C9_confidence_never_exceeds_seven_tenths.1 "hello" "hi",
    by decide, by decide,
    C9_confidence_never_exceeds_seven_tenths.2 "hello" "hi" (by decide) (by decide)⟩

/-- C10: empty or whitespace-only input short-circuits `translate_text` to
the empty string without invoking the backend, while a backend failure (after
one invocation) yields `none`; the two outcomes are distinct values, so a
caller can tell "nothing to translate" from "translation failed". -/
theorem C10_translate_text_distinguishes_empty_from_failure :
    (∀ (backend : String → Option String) (text : String),
      pyStrip text = "" → translate_text backend text = (some "", 0)) ∧
    (∀ (backend : String → Option String) (text : String),
      ¬ pyStrip text = "" → backend text = none →
      translate_text backend text = (none, 1)) ∧
    (some "" ≠ (none : Option String)) := by
  refine ⟨?_, ?_, by simp⟩
  · intro backend text h
    simp [translate_text, h]
  · intro backend text h hb
    simp [translate_text, h, hb]

/-- Witness for C10 at concrete inputs. -/
theorem C10_witness :
    (pyStrip "   " = "" ∧ translate_text (fun _ => none) "   " = (some "", 0)) ∧
    (¬ pyStrip "hello" = "" ∧ (fun (_ : String) => (none : Option String)) "hello" = none ∧
      translate_text (fun _ => none) "hello" = (none, 1)) :=
  ⟨⟨by decide, C10_translate_text_distinguishes_empty_from_failure.1 _ "   " (by decide)⟩,
    ⟨by decide, rfl,
      C10_translate_text_distinguishes_empty_from_failure.2.1 _ "hello" (by decide) rfl⟩⟩

/-- `start_translation` is a pure rejection when the coordinator is not
Stopped: unchanged state, `false` result, no callbacks. -/
theorem start_rejected (lt : LiveTranslator) (url : String) (live : Bool)
    (info : Option String) (h : lt.state ≠ .stopped) :
    start_translation lt url live info = (lt, false) := by
  simp [start_translation, h]

/-- Whatever the extractor reports, a `start_translation` issued from Stopped
never lands back on Stopped: it ends Running on success and Error on a
validation failure. -/
theorem start_result_not_stopped (lt : LiveTranslator) (url : String)
    (live : Bool) (info : Option String) (h : lt.state = .stopped) :
    (start_translation lt url live info).1.state ≠ .stopped := by
  cases live with
  | false => simp [start_translation, h, update_state, handle_error]
  | true =>
      cases info with
      | none => simp [start_translation, h, update_state, handle_error]
      | some t => simp [start_translation, h, update_state, handle_error]

/-- C4: `start_translation` is rejected unless the state is Stopped; in
particular a second start issued right after a first one (which left the
state Running or Error, never Stopped) is a no-op returning failure, with the
state exactly as the first call left it. -/
theorem C4_start_twice_second_rejected :
    (∀ (lt : LiveTranslator) (url : String) (live : Bool) (info : Option String),
      lt.state ≠ .stopped → start_translation lt url live info = (lt, false)) ∧
    (∀ (lt : LiveTranslator) (url1 url2 : String) (live1 live2 : Bool)
        (info1 info2 : Option String),
      lt.state = .stopped →
      start_translation (start_translation lt url1 live1 info1).1 url2 live2 info2 =
        ((start_translation lt url1 live1 info1).1, false)) := by
  constructor
  · exact fun lt url live info h => start_rejected lt url live info h
  · intro lt url1 url2 live1 live2 info1 info2 h
    exact start_rejected _ url2 live2 info2
      (start_result_not_stopped lt url1 live1 info1 h)

/-- Witness for C4: a fresh coordinator is started successfully once; the
second start call is rejected and changes nothing. -/
theorem C4_witness :
    (LiveTranslator.init 10 500).state = .stopped ∧
    start_translation
        (start_translation (LiveTranslator.init 10 500) "https://example.com/live"
          true (some "stream title")).1 "https://other" true (some "other") =
      ((start_translation (LiveTranslator.init 10 500) "https://example.com/live"
          true (some "stream title")).1, false) :=
  ⟨rfl, C4_start_twice_second_rejected.2 (LiveTranslator.init 10 500)
    "https://example.com/live" "https://other" true true (some "stream title")
    (some "other") rfl⟩

/-- C2 counterexample: calling `stop_translation` on a freshly constructed
(Stopped) coordinator is not free of state-change events — the state observer
is invoked twice, with Stopping and then Stopped. -/
theorem C2_counterexample_stop_from_stopped_fires_events :
    (LiveTranslator.init 10 500).state = .stopped ∧
    (LiveTranslator.init 10 500).stateEvents = [] ∧
    (stop_translation (LiveTranslator.init 10 500)).stateEvents =
      [.stopping, .stopped] := by
  refine ⟨rfl, rfl, ?_⟩
  decide

/-- C2 (amended): `stop_translation` from Stopped leaves the state Stopped,
fires no error callback, touches neither statistics, results, nor the cache —
but it does fire two state-change events (Stopping then Stopped), so it is
not a complete no-op. -/
theorem C2_amended_stop_from_stopped :
    ∀ lt : LiveTranslator, lt.state = .stopped →
      (stop_translation lt).state = .stopped ∧
      (stop_translation lt).errorEvents = lt.errorEvents ∧
      (stop_translation lt).stats = lt.stats ∧
      (stop_translation lt).results = lt.results ∧
      (stop_translation lt).translation_cache = lt.translation_cache ∧
      (stop_translation lt).stateEvents = lt.stateEvents ++ [.stopping, .stopped] := by
  intro lt h
  refine ⟨?_, ?_, ?_, ?_, ?_, ?_⟩ <;> simp [stop_translation, update_state, h]

/-- Witness for C2 (amended) on a fresh coordinator. -/
theorem C2_witness :
    (LiveTranslator.init 10 500).state = .stopped ∧
    ((stop_translation (LiveTranslator.init 10 500)).state = .stopped ∧
      (stop_translation (LiveTranslator.init 10 500)).errorEvents =
        (LiveTranslator.init 10 500).errorEvents ∧
      (stop_translation (LiveTranslator.init 10 500)).stats =
        (LiveTranslator.init 10 500).stats ∧
      (stop_translation (LiveTranslator.init 10 500)).results =
        (LiveTranslator.init 10 500).results ∧
      (stop_translation (LiveTranslator.init 10 500)).translation_cache =
        (LiveTranslator.init 10 500).translation_cache ∧
      (stop_translation (LiveTranslator.init 10 500)).stateEvents =
        (LiveTranslator.init 10 500).stateEvents ++ [.stopping, .stopped]) :=
  ⟨rfl, C2_amended_stop_from_stopped (LiveTranslator.init 10 500) rfl⟩

/-- C1 (code bug): an exception in the worker's per-segment processing IS
caught and reported through the error callback — but `_handle_error`
transitions the coordinator to Error, which falsifies the loop guard
`while self.state in [RUNNING, STARTING]`, so the worker exits instead of
proceeding to the next queued segment.  Here a started pipeline receives a
raising segment followed by a perfectly good one: the error is reported
(one error event, error counter 1, state Error) yet no result is ever
produced — the good segment is abandoned.  The last conjunct shows the same
good segment yields a result when the worker is still running. -/
theorem C1_worker_exits_after_caught_error :
    (audio_processing_worker exampleHash startedLT
      [some (.raises "boom"),
       some (.normal (some "hello") (some "KONNICHIWA") 1)]).state = .error ∧
    (audio_processing_worker exampleHash startedLT
      [some (.raises "boom"),
       some (.normal (some "hello") (some "KONNICHIWA") 1)]).errorEvents =
      ["音声処理エラー: boom"] ∧
    (audio_processing_worker exampleHash startedLT
      [some (.raises "boom"),
       some (.normal (some "hello") (some "KONNICHIWA") 1)]).stats.errors = 1 ∧
    (audio_processing_worker exampleHash startedLT
      [some (.raises "boom"),
       some (.normal (some "hello") (some "KONNICHIWA") 1)]).results = [] ∧
    (audio_processing_worker exampleHash startedLT
      [some (.normal (some "hello") (some "KONNICHIWA") 1)]).results.length = 1 := by
  refine ⟨?_, ?_, ?_, ?_, ?_⟩ <;> decide

/-- C3 counterexample: three segments where the second one's recognition
fails (the recognizer returns `None`) and the first and third succeed.
Exactly two results fire, for segments 1 and 3 in order — but the error
counter does NOT increase by 1: it stays at 0, because a `None` transcription
is dropped silently by `if transcription and transcription.strip()`. -/
theorem C3_counterexample_error_count_unchanged :
    ((audio_processing_worker exampleHash startedLT
        [some (.normal (some "one") (some "ichi") 1),
         some (.normal none (some "ni") 1),
         some (.normal (some "three") (some "san") 1)]).results.map
      TranscriptionResult.original_text = ["one", "three"]) ∧
    startedLT.stats.errors = 0 ∧
    (audio_processing_worker exampleHash startedLT
        [some (.normal (some "one") (some "ichi") 1),
         some (.normal none (some "ni") 1),
         some (.normal (some "three") (some "san") 1)]).stats.errors = 0 ∧
    ¬ ((audio_processing_worker exampleHash startedLT
        [some (.normal (some "one") (some "ichi") 1),
         some (.normal none (some "ni") 1),
         some (.normal (some "three") (some "san") 1)]).stats.errors =
      startedLT.stats.errors + 1) := by
  refine ⟨?_, rfl, ?_, ?_⟩ <;> decide

/-- C3 (amended): for any running, well-formed pipeline and any such
3-segment queue (segment 2's recognition returns `None`, segments 1 and 3
carry non-blank transcriptions), exactly two results fire — for segments 1
and 3, in order — and the error count statistic is unchanged. -/
theorem C3_amended_two_results_error_count_unchanged
    (hashFn : String → Int) (lt : LiveTranslator) (t1 t3 : String)
    (b1 b2 b3 : Option String) (d1 d2 d3 : ℚ)
    (hstate : lt.state = .running)
    (ht1 : ¬ pyStrip t1 = "") (ht3 : ¬ pyStrip t3 = "")
    (hwf : CacheWF lt.translation_cache)
    (hmax : 1 ≤ lt.translation_cache.max_size) :
    ∃ r1 r3 : TranscriptionResult, r1.original_text = t1 ∧ r3.original_text = t3 ∧
      (audio_processing_worker hashFn lt
        [some (.normal (some t1) b1 d1), some (.normal none b2 d2),
         some (.normal (some t3) b3 d3)]).results = lt.results ++ [r1, r3] ∧
      (audio_processing_worker hashFn lt
        [some (.normal (some t1) b1 d1), some (.normal none b2 d2),
         some (.normal (some t3) b3 d3)]).stats.errors = lt.stats.errors := by
  obtain ⟨w1, hw1, ⟨r1, hr1, hres1⟩, _, _, _, herr1, hstate1, _, _, _, _, _, hwf1, hmax1⟩ :=
    worker_step_emits hashFn lt t1 b1 d1 ht1 hwf hmax
  obtain ⟨w3, hw3, ⟨r3, hr3, hres3⟩, _, _, _, herr3, hstate3, _, _, _, _, _, _, _⟩ :=
    worker_step_emits hashFn w1 t3 b3 d3 ht3 hwf1 (hmax1.symm ▸ hmax)
  have hrun : audio_processing_worker hashFn lt
      [some (.normal (some t1) b1 d1), some (.normal none b2 d2),
       some (.normal (some t3) b3 d3)] = w3 := by
    simp [audio_processing_worker, hstate, hw1, worker_step_skip_none, hw3,
      hstate1]
  refine ⟨r1, r3, hr1, hr3, ?_, ?_⟩
  · rw [hrun, hres3, hres1]
    simp
  · rw [hrun, herr3, herr1]

/-- Witness for C3 (amended) on a freshly started pipeline. -/
theorem C3_witness :
    startedLT.state = .running ∧
    (¬ pyStrip "one" = "") ∧ (¬ pyStrip "three" = "") ∧
    (∃ r1 r3 : TranscriptionResult,
      r1.original_text = "one" ∧ r3.original_text = "three" ∧
      (audio_processing_worker exampleHash startedLT
        [some (.normal (some "one") (some "ichi") 1),
         some (.normal none (some "ni") 1),
         some (.normal (some "three") (some "san") 1)]).results =
        startedLT.results ++ [r1, r3] ∧
      (audio_processing_worker exampleHash startedLT
        [some (.normal (some "one") (some "ichi") 1),
         some (.normal none (some "ni") 1),
         some (.normal (some "three") (some "san") 1)]).stats.errors =
        startedLT.stats.errors) :=
  ⟨rfl, by decide, by decide,
    C3_amended_two_results_error_count_unchanged exampleHash startedLT "one" "three"
      (some "ichi") (some "ni") (some "san") 1 1 1 rfl (by decide) (by decide)
      (cacheWF_init 500) (by decide)⟩

/-- C7: recognition succeeded (non-blank text) but the translation failed —
the cache missed and the backend returned `None`.  A result is still emitted
with the recognized text and an absent `translated_text`; nothing is stored in
the cache (the cache state is untouched); `cache_misses` is incremented (and
the error counter is not). -/
theorem C7_translation_failure_emits_without_caching
    (hashFn : String → Int) (lt : LiveTranslator) (text : String) (dur : ℚ)
    (htext : ¬ pyStrip text = "")
    (hmiss : dictGet lt.translation_cache.cache
      (make_key hashFn text lt.source_language lt.target_language) = none) :
    worker_step hashFn lt (.normal (some text) none dur) =
      { lt with
        results := lt.results ++
          [{ timestamp := 0, original_text := text, translated_text := none,
             confidence := 0, language := lt.source_language }],
        stats := { lt.stats with
          cache_misses := lt.stats.cache_misses + 1,
          segments_processed := lt.stats.segments_processed + 1,
          total_processing_time := lt.stats.total_processing_time + dur,
          total_audio_time := lt.stats.total_audio_time + lt.segment_duration } } := by
  have hget := get_miss hashFn lt.translation_cache text
    lt.source_language lt.target_language hmiss
  have hconf : get_translation_confidence text "" = 0 := by
    simp [get_translation_confidence, pyStrip_empty]
  simp [worker_step, htext, hget, pyTruthy, emit_result, hconf]

/-- Witness for C7: a started pipeline with an empty cache, recognition
yields "hello", the backend fails. -/
theorem C7_witness :
    (¬ pyStrip "hello" = "") ∧
    dictGet startedLT.translation_cache.cache
      (make_key exampleHash "hello" startedLT.source_language
        startedLT.target_language) = none ∧
    worker_step exampleHash startedLT (.normal (some "hello") none 5) =
      { startedLT with
        results := startedLT.results ++
          [{ timestamp := 0, original_text := "hello", translated_text := none,
             confidence := 0, language := startedLT.source_language }],
        stats := { startedLT.stats with
          cache_misses := startedLT.stats.cache_misses + 1,
          segments_processed := startedLT.stats.segments_processed + 1,
          total_processing_time := startedLT.stats.total_processing_time + 5,
          total_audio_time := startedLT.stats.total_audio_time +
            startedLT.segment_duration } } :=
  ⟨by decide, rfl,
    C7_translation_failure_emits_without_caching exampleHash startedLT "hello" 5
      (by decide) rfl⟩

/-- On any `get_stats` call that returns (does not raise), the reported
cache hit rate is hits over hits+misses, or 0 when there have been no
lookups. -/
theorem get_stats_ok_hit_rate (lt : LiveTranslator) (v : StatsView)
    (hv : get_stats lt = .ok v) :
    v.cache_hit_rate =
      if lt.stats.cache_hits + lt.stats.cache_misses > 0 then
        (lt.stats.cache_hits : ℚ) /
          ((lt.stats.cache_hits + lt.stats.cache_misses : Nat) : ℚ)
      else 0 := by
  simp only [get_stats] at hv
  by_cases h1 : lt.stats.segments_processed > 0
  · rw [if_pos h1] at hv
    by_cases h2 : lt.stats.total_processing_time = 0
    · rw [if_pos h2] at hv
      exact absurd hv (by simp)
    · rw [if_neg h2] at hv
      injection hv with h3
      rw [← h3]
  · rw [if_neg h1] at hv
    injection hv with h3
    rw [← h3]

/-- C8 counterexample: at a state with `segments_processed > 0` and
`total_processing_time = 0`, the real `get_stats` raises `ZeroDivisionError`
at the unguarded `processing_speed_ratio` division and returns nothing, so
the claimed read-time values are not returned there.  Such a state is
reachable: the last three conjuncts show one emitted segment whose measured
wall-clock duration is 0 produces exactly those counters, and `get_stats`
then raises. -/
theorem C8_counterexample_zero_division :
    get_stats { LiveTranslator.init 10 500 with stats := ⟨1, 0, 0, 0, 0, 0⟩ } =
      .error "ZeroDivisionError: float division by zero" ∧
    (∀ v : StatsView,
      ¬ get_stats { LiveTranslator.init 10 500 with stats := ⟨1, 0, 0, 0, 0, 0⟩ } =
        .ok v) ∧
    (audio_processing_worker exampleHash startedLT
      [some (.normal (some "hello") (some "x") 0)]).stats.segments_processed = 1 ∧
    (audio_processing_worker exampleHash startedLT
      [some (.normal (some "hello") (some "x") 0)]).stats.total_processing_time = 0 ∧
    get_stats (audio_processing_worker exampleHash startedLT
      [some (.normal (some "hello") (some "x") 0)]) =
      .error "ZeroDivisionError: float division by zero" := by
  have herr : get_stats { LiveTranslator.init 10 500 with
      stats := ⟨1, 0, 0, 0, 0, 0⟩ } =
      .error "ZeroDivisionError: float division by zero" := rfl
  obtain ⟨w1, hw1, _, hseg1, hpt1, _, _, _, _, _, _, _, _, _, _⟩ :=
    worker_step_emits exampleHash startedLT "hello" (some "x") 0 (by decide)
      (cacheWF_init 500) (by decide)
  have hrun : audio_processing_worker exampleHash startedLT
      [some (.normal (some "hello") (some "x") 0)] = w1 := by
    simp [audio_processing_worker, hw1, show startedLT.state = .running from rfl]
  have hseg : w1.stats.segments_processed = 1 := by
    rw [hseg1]
    rfl
  have hpt : w1.stats.total_processing_time = 0 := by
    rw [hpt1]
    norm_num [show startedLT.stats.total_processing_time = (0 : ℚ) from rfl]
  refine ⟨herr, ?_, ?_, ?_, ?_⟩
  · intro v hv
    rw [herr] at hv
    exact Except.noConfusion hv
  · rw [hrun]
    exact hseg
  · rw [hrun]
    exact hpt
  · rw [hrun]
    have hpos : w1.stats.segments_processed > 0 := by
      rw [hseg]
      norm_num
    simp only [get_stats]
    rw [if_pos hpos, if_pos hpt]

/-- C8 (amended): whenever `get_stats` actually returns a snapshot — always
when `segments_processed` is 0, and exactly when `total_processing_time` is
nonzero otherwise (else the unguarded `processing_speed_ratio` division
raises `ZeroDivisionError`) — the derived values are computed at read time
from the counters: average processing time is total processing time over
segments processed (0 when none) and cache hit rate is hits over hits+misses
(0 when none); in the spec's concrete scenario (segment duration 10, two
processed segments of durations 2 and 4) the snapshot is returned and reads
average 3.0 and total audio time 20.0. -/
theorem C8_amended_derived_stats :
    (∀ lt : LiveTranslator, lt.stats.segments_processed = 0 →
      ∃ v : StatsView, get_stats lt = .ok v ∧ v.avg_processing_time = 0) ∧
    (∀ lt : LiveTranslator, 0 < lt.stats.segments_processed →
      lt.stats.total_processing_time ≠ 0 →
      ∃ v : StatsView, get_stats lt = .ok v ∧
        v.avg_processing_time =
          lt.stats.total_processing_time / (lt.stats.segments_processed : ℚ)) ∧
    (∀ (lt : LiveTranslator) (v : StatsView), get_stats lt = .ok v →
      lt.stats.cache_hits + lt.stats.cache_misses = 0 → v.cache_hit_rate = 0) ∧
    (∀ (lt : LiveTranslator) (v : StatsView), get_stats lt = .ok v →
      0 < lt.stats.cache_hits + lt.stats.cache_misses →
      v.cache_hit_rate = (lt.stats.cache_hits : ℚ) /
        ((lt.stats.cache_hits : ℚ) + (lt.stats.cache_misses : ℚ))) ∧
    (∀ (hashFn : String → Int) (t1 t2 : String) (b1 b2 : Option String),
      ¬ pyStrip t1 = "" → ¬ pyStrip t2 = "" →
      ∃ v : StatsView,
        get_stats (audio_processing_worker hashFn startedLT
          [some (.normal (some t1) b1 2),
           some (.normal (some t2) b2 4)]) = .ok v ∧
        v.avg_processing_time = 3 ∧ v.total_audio_time = 20) := by
  refine ⟨?_, ?_, ?_, ?_, ?_⟩
  · intro lt h
    have hcond : ¬ lt.stats.segments_processed > 0 := by omega
    have hok : get_stats lt = .ok
        { segments_processed := lt.stats.segments_processed
          total_audio_time := lt.stats.total_audio_time
          total_processing_time := lt.stats.total_processing_time
          errors := lt.stats.errors
          cache_hits := lt.stats.cache_hits
          cache_misses := lt.stats.cache_misses
          avg_processing_time := 0
          processing_speed_ratio := 0
          cache_hit_rate :=
            if lt.stats.cache_hits + lt.stats.cache_misses > 0 then
              (lt.stats.cache_hits : ℚ) /
                ((lt.stats.cache_hits + lt.stats.cache_misses : Nat) : ℚ)
            else 0 } := by
      simp only [get_stats]
      rw [if_neg hcond]
    exact ⟨_, hok, rfl⟩
  · intro lt h hne
    have hok : get_stats lt = .ok
        { segments_processed := lt.stats.segments_processed
          total_audio_time := lt.stats.total_audio_time
          total_processing_time := lt.stats.total_processing_time
          errors := lt.stats.errors
          cache_hits := lt.stats.cache_hits
          cache_misses := lt.stats.cache_misses
          avg_processing_time :=
            lt.stats.total_processing_time / (lt.stats.segments_processed : ℚ)
          processing_speed_ratio :=
            lt.stats.total_audio_time / lt.stats.total_processing_time
          cache_hit_rate :=
            if lt.stats.cache_hits + lt.stats.cache_misses > 0 then
              (lt.stats.cache_hits : ℚ) /
                ((lt.stats.cache_hits + lt.stats.cache_misses : Nat) : ℚ)
            else 0 } := by
      simp only [get_stats]
      rw [if_pos h, if_neg hne]
    exact ⟨_, hok, rfl⟩
  · intro lt v hv h
    rw [get_stats_ok_hit_rate lt v hv, if_neg (by omega)]
  · intro lt v hv h
    rw [get_stats_ok_hit_rate lt v hv, if_pos h]
    push_cast
    rfl
  · intro hashFn t1 t2 b1 b2 ht1 ht2
    have hwfS : CacheWF startedLT.translation_cache := cacheWF_init 500
    have hmaxS : (1 : Nat) ≤ startedLT.translation_cache.max_size := by decide
    have hstateS : startedLT.state = .running := rfl
    obtain ⟨w1, hw1, _, hseg1, hpt1, hat1, _, hstate1, hdur1, _, _, _, _, hwf1, hmax1⟩ :=
      worker_step_emits hashFn startedLT t1 b1 2 ht1 hwfS hmaxS
    obtain ⟨w2, hw2, _, hseg2, hpt2, hat2, _, _, _, _, _, _, _, _⟩ :=
      worker_step_emits hashFn w1 t2 b2 4 ht2 hwf1 (hmax1.symm ▸ hmaxS)
    have hrun : audio_processing_worker hashFn startedLT
        [some (.normal (some t1) b1 2), some (.normal (some t2) b2 4)] = w2 := by
      simp [audio_processing_worker, hstateS, hw1, hw2, hstate1]
    have hseg : w2.stats.segments_processed = 2 := by
      rw [hseg2, hseg1]
      rfl
    have hpt : w2.stats.total_processing_time = 6 := by
      rw [hpt2, hpt1]
      norm_num [show startedLT.stats.total_processing_time = (0 : ℚ) from rfl]
    have hat : w2.stats.total_audio_time = 20 := by
      rw [hat2, hat1, hdur1]
      norm_num [show startedLT.stats.total_audio_time = (0 : ℚ) from rfl,
        show startedLT.segment_duration = (10 : ℚ) from rfl]
    have hpos : w2.stats.segments_processed > 0 := by
      rw [hseg]
      norm_num
    have hne : ¬ w2.stats.total_processing_time = 0 := by
      rw [hpt]
      norm_num
    have hok : get_stats w2 = .ok
        { segments_processed := w2.stats.segments_processed
          total_audio_time := w2.stats.total_audio_time
          total_processing_time := w2.stats.total_processing_time
          errors := w2.stats.errors
          cache_hits := w2.stats.cache_hits
          cache_misses := w2.stats.cache_misses
          avg_processing_time :=
            w2.stats.total_processing_time / (w2.stats.segments_processed : ℚ)
          processing_speed_ratio :=
            w2.stats.total_audio_time / w2.stats.total_processing_time
          cache_hit_rate :=
            if w2.stats.cache_hits + w2.stats.cache_misses > 0 then
              (w2.stats.cache_hits : ℚ) /
                ((w2.stats.cache_hits + w2.stats.cache_misses : Nat) : ℚ)
            else 0 } := by
      simp only [get_stats]
      rw [if_pos hpos, if_neg hne]
    refine ⟨_, by rw [hrun]; exact hok, ?_, ?_⟩
    · show w2.stats.total_processing_time / (w2.stats.segments_processed : ℚ) = 3
      rw [hpt, hseg]
      norm_num
    · show w2.stats.total_audio_time = 20
      exact hat

/-- Witness for C8 (amended) at concrete inputs. -/
theorem C8_witness :
    (¬ pyStrip "alpha" = "") ∧ (¬ pyStrip "beta" = "") ∧
    (∃ v : StatsView,
      get_stats (audio_processing_worker exampleHash startedLT
        [some (.normal (some "alpha") (some "x") 2),
         some (.normal (some "beta") none 4)]) = .ok v ∧
      v.avg_processing_time = 3 ∧ v.total_audio_time = 20) :=
  ⟨by decide, by decide,
    C8_amended_derived_stats.2.2.2.2 exampleHash "alpha" "beta" (some "x") none
      (by decide) (by decide)⟩

/-- C5: for a cache built with capacity at least 1, (i) any sequence of
get/set/clear operations runs without raising and never leaves more than
`maxSize` stored entries; (ii) a `get` hit promotes the key to the
most-recently-used end of the recency order without changing the stored
mapping; (iii) inserting a new key at capacity evicts exactly one entry —
the head of the recency order, i.e. the least-recently-used key (least
recently returned by `get`, or inserted if never accessed) — leaves every
other mapping untouched, stores the new entry, and makes the new key most
recently used. -/
theorem C5_bounded_lru_cache :
    ∀ (hashFn : String → Int) (maxSize : Nat), 1 ≤ maxSize →
      (∀ ops : List CacheOp, ∃ c1,
        runOps hashFn (TranslationCache.init maxSize) ops = .ok c1 ∧
        c1.cache.length ≤ maxSize) ∧
      (∀ (c : TranslationCache) (text s g v : String), CacheWF c →
        dictGet c.cache (make_key hashFn text s g) = some v →
        ∃ c1, c.get hashFn text s g = .ok (some v, c1) ∧ c1.cache = c.cache ∧
          c1.access_order.getLast? = some (make_key hashFn text s g)) ∧
      (∀ (c : TranslationCache) (text s g tr : String), CacheWF c →
        c.max_size = maxSize → c.cache.length = maxSize →
        dictGet c.cache (make_key hashFn text s g) = none →
        ∃ lru rest c1, c.access_order = lru :: rest ∧
          c.set hashFn text s g tr = .ok c1 ∧
          c1.cache.length = maxSize ∧
          dictGet c1.cache lru = none ∧
          dictGet c1.cache (make_key hashFn text s g) = some tr ∧
          (∀ j, j ≠ lru → j ≠ make_key hashFn text s g →
            dictGet c1.cache j = dictGet c.cache j) ∧
          c1.access_order = rest ++ [make_key hashFn text s g]) := by
  intro hashFn maxSize hmax
  refine ⟨?_, ?_, ?_⟩
  · intro ops
    obtain ⟨c1, hrun, hwf1, hmaxeq⟩ :=
      runOps_ok hashFn ops (TranslationCache.init maxSize) (cacheWF_init maxSize) hmax
    refine ⟨c1, hrun, ?_⟩
    have hle := hwf1.size_le
    rw [hmaxeq] at hle
    exact hle
  · intro c text s g v hwf hv
    obtain ⟨c1, hget, hcache, _, hlast⟩ := get_promotes hashFn c text s g v hwf hv
    exact ⟨c1, hget, hcache, hlast⟩
  · intro c text s g tr hwf hcmax hfull hnew
    obtain ⟨lru, rest, c1, horder, hset, hlen, _, hlru, hkey, hother, horder1⟩ :=
      set_evict hashFn c text s g tr hwf (hcmax ▸ hmax) (hcmax ▸ hfull) hnew
    exact ⟨lru, rest, c1, horder, hset, hcmax ▸ hlen, hlru, hkey, hother, horder1⟩

/-- Witness for C5: a capacity-1 cache survives a concrete set/get/set/clear
sequence within its bound. -/
theorem C5_witness :
    (1 : Nat) ≤ 1 ∧
    (∃ c1, runOps exampleHash (TranslationCache.init 1)
        [.set "a" "en" "ja" "A", .get "a" "en" "ja",
         .set "bb" "en" "ja" "B", .clear] = .ok c1 ∧
      c1.cache.length ≤ 1) :=
  ⟨by decide, (C5_bounded_lru_cache exampleHash 1 (by decide)).1
    [.set "a" "en" "ja" "A", .get "a" "en" "ja", .set "bb" "en" "ja" "B", .clear]⟩

/-- C6: `set(k, v)` immediately followed by `get(k)` returns `v` from any
well-formed state with positive capacity; and with a capacity-1 cache,
setting two successive distinct keys evicts the first — `get` on the first
key then misses (returning absent without mutating the state). -/
theorem C6_set_then_get_roundtrip :
    (∀ (hashFn : String → Int) (c : TranslationCache) (text s g v : String),
      CacheWF c → 1 ≤ c.max_size →
      ∃ c1 c2, c.set hashFn text s g v = .ok c1 ∧
        c1.get hashFn text s g = .ok (some v, c2)) ∧
    (∀ (hashFn : String → Int) (t1 t2 s g v1 v2 : String),
      make_key hashFn t1 s g ≠ make_key hashFn t2 s g →
      ∃ c1 c2, (TranslationCache.init 1).set hashFn t1 s g v1 = .ok c1 ∧
        c1.set hashFn t2 s g v2 = .ok c2 ∧
        dictGet c2.cache (make_key hashFn t1 s g) = none ∧
        c2.get hashFn t1 s g = .ok (none, c2)) := by
  constructor
  · intro hashFn c text s g v hwf hmax
    obtain ⟨c1, hset, hwf1, _, hstored⟩ := set_ok hashFn c text s g v hwf hmax
    obtain ⟨c2, hget, _, _, _⟩ := get_ok hashFn c1 text s g hwf1
    rw [hstored] at hget
    exact ⟨c1, c2, hset, hget⟩
  · intro hashFn t1 t2 s g v1 v2 hne
    have h21 : ¬ make_key hashFn t2 s g = make_key hashFn t1 s g :=
      fun hh => hne hh.symm
    have h1 : (TranslationCache.init 1).set hashFn t1 s g v1 =
        .ok ⟨[(make_key hashFn t1 s g, v1)], 1, [make_key hashFn t1 s g]⟩ := by
      simp [TranslationCache.set, TranslationCache.init, dictGet, dictSet]
    have h2 : (⟨[(make_key hashFn t1 s g, v1)], 1,
          [make_key hashFn t1 s g]⟩ : TranslationCache).set hashFn t2 s g v2 =
        .ok ⟨[(make_key hashFn t2 s g, v2)], 1, [make_key hashFn t2 s g]⟩ := by
      simp [TranslationCache.set, dictGet, dictSet, dictDel, h21, hne]
    have hmiss : dictGet [(make_key hashFn t2 s g, v2)] (make_key hashFn t1 s g) =
        none := by
      simp [dictGet, h21]
    refine ⟨_, _, h1, h2, hmiss, ?_⟩
    exact get_miss hashFn _ t1 s g hmiss

/-- Witness for C6: with a concrete hash, "a" and "bb" give distinct keys;
the capacity-1 eviction scenario runs as stated. -/
theorem C6_witness :
    make_key exampleHash "a" "en" "ja" ≠ make_key exampleHash "bb" "en" "ja" ∧
    (∃ c1 c2, (TranslationCache.init 1).set exampleHash "a" "en" "ja" "A" = .ok c1 ∧
      c1.set exampleHash "bb" "en" "ja" "B" = .ok c2 ∧
      dictGet c2.cache (make_key exampleHash "a" "en" "ja") = none ∧
      c2.get exampleHash "a" "en" "ja" = .ok (none, c2)) :=
  ⟨by decide, C6_set_then_get_roundtrip.2 exampleHash "a" "bb" "en" "ja" "A" "B"
    (by decide)⟩

end LiveTranslatorModel
